import Mathlib

/-!
# Verification of `table_properties.rs` (rust-rocksdb table-properties bridge)

Shallow embedding of `src/table_properties.rs` and the conformance test
`tests/test_table_properties.rs`.

Modelling conventions:
- A raw byte buffer (`&[u8]`, `Box<[u8]>`) is a `List Nat` of byte values.
- A `(ptr, len)` pair crossing the FFI boundary is modelled as the pointed-to
  byte list together with the length; `slice::from_raw_parts` becomes
  `List.take` of the length.
- `BTreeMap<Box<[u8]>, Box<[u8]>>` is a list of key/value pairs strictly
  ascending in byte-lexicographic key order (the `BTreeMap` representation
  invariant), bundled as the structure `PropertyMap`.
- A user collector (`trait TablePropertiesCollector`) is a record of its
  methods over an explicit state type `σ`; `&mut self` methods become
  state-passing functions `σ → ... → σ`.
- The engine-side sink pointer (`properties: *mut c_void`) handed to the
  outbound trampolines is modelled by an arbitrary engine-state type `π`
  transformed by the engine's add-property callback; a null function pointer
  (`Option<fn>` on the Rust side) is `Option` here.
- A panicking path (`Option::unwrap` on `EntryType::from_raw`) is modelled by
  the trampoline returning `none` (no successor state).
-/

/-- Byte sequence: the content of a `&[u8]` / `Box<[u8]>`. -/
abbrev Bytes := List Nat

/-- Byte-lexicographic strict order on byte sequences: the `Ord` instance of
Rust `[u8]` used by `BTreeMap` (element-wise comparison, a strict prefix is
smaller). -/
def bytesLt : Bytes → Bytes → Bool
  | [], [] => false
  | [], _ :: _ => true
  | _ :: _, [] => false
  | a :: as, b :: bs => if a < b then true else if b < a then false else bytesLt as bs

theorem bytesLt_irrefl : ∀ a : Bytes, bytesLt a a = false := by
  intro a
  induction a with
  | nil => rfl
  | cons x xs ih => simp [bytesLt, ih]

theorem bytesLt_asymm : ∀ a b : Bytes, bytesLt a b = true → bytesLt b a = false := by
  intro a
  induction a with
  | nil =>
    intro b _
    cases b with
    | nil => rfl
    | cons y ys => rfl
  | cons x xs ih =>
    intro b hab
    cases b with
    | nil => simp [bytesLt] at hab
    | cons y ys =>
      simp only [bytesLt] at hab ⊢
      by_cases hxy : x < y
      · have hyx : ¬ y < x := by omega
        simp [hxy, hyx] at hab ⊢
      · by_cases hyx : y < x
        · simp [hxy, hyx] at hab
        · simp only [hxy, hyx, if_false] at hab ⊢
          exact ih ys hab

theorem bytesLt_ne : ∀ a b : Bytes, bytesLt a b = true → a ≠ b := by
  intro a b hab heq
  subst heq
  rw [bytesLt_irrefl] at hab
  exact Bool.noConfusion hab

theorem bytesLt_trans :
    ∀ a b c : Bytes, bytesLt a b = true → bytesLt b c = true → bytesLt a c = true := by
  intro a
  induction a with
  | nil =>
    intro b c hab hbc
    cases b with
    | nil => simp [bytesLt] at hab
    | cons y ys =>
      cases c with
      | nil => simp [bytesLt] at hbc
      | cons z zs => rfl
  | cons x xs ih =>
    intro b c hab hbc
    cases b with
    | nil => simp [bytesLt] at hab
    | cons y ys =>
      cases c with
      | nil => simp [bytesLt] at hbc
      | cons z zs =>
        simp only [bytesLt] at hab hbc ⊢
        by_cases hxy : x < y <;> by_cases hyz : y < z
        · have hxz : x < z := by omega
          simp [hxz]
        · by_cases hzy : z < y
          · exfalso
            simp [hzy] at hbc
            omega
          · have hyz' : y = z := by omega
            subst hyz'
            simp [hxy]
        · by_cases hyx : y < x
          · simp [hxy, hyx] at hab
          · have hxy' : x = y := by omega
            subst hxy'
            simp [hyz]
        · by_cases hyx : y < x
          · simp [hxy, hyx] at hab
          · by_cases hzy : z < y
            · simp [hyz, hzy] at hbc
            · have hxy' : x = y := by omega
              have hyz' : y = z := by omega
              subst hxy'
              subst hyz'
              simp only [lt_irrefl, if_false] at hab hbc ⊢
              exact ih ys zs hab hbc

theorem bytesLt_conn :
    ∀ a b : Bytes, bytesLt a b = false → a ≠ b → bytesLt b a = true := by
  intro a
  induction a with
  | nil =>
    intro b hab hne
    cases b with
    | nil => exact absurd rfl hne
    | cons y ys => simp [bytesLt] at hab
  | cons x xs ih =>
    intro b hab hne
    cases b with
    | nil => rfl
    | cons y ys =>
      simp only [bytesLt] at hab ⊢
      by_cases hxy : x < y
      · simp [hxy] at hab
      · by_cases hyx : y < x
        · simp [hyx]
        · have hxy' : x = y := by omega
          subst hxy'
          simp only [lt_irrefl, if_false] at hab ⊢
          refine ih ys hab ?_
          intro hx
          exact hne (by rw [hx])

/-- Strict ascending-key relation between two map entries. -/
def entryLt (p q : Bytes × Bytes) : Prop := bytesLt p.1 q.1 = true

/-- `BTreeMap<Box<[u8]>, Box<[u8]>>`: entries strictly ascending in
byte-lexicographic key order (the B-tree representation invariant). -/
structure PropertyMap where
  entries : List (Bytes × Bytes)
  sorted : entries.Pairwise entryLt

/-- `BTreeMap::new()` / `BTreeMap::default()`. -/
def PropertyMap.empty : PropertyMap := ⟨[], List.Pairwise.nil⟩

/-- `BTreeMap::insert` on the entry list: place the pair at its ordered
position, replacing the value if the key is already present. -/
def insertEntries (k v : Bytes) : List (Bytes × Bytes) → List (Bytes × Bytes)
  | [] => [(k, v)]
  | (k', v') :: rest =>
    if bytesLt k k' then (k, v) :: (k', v') :: rest
    else if k = k' then (k, v) :: rest
    else (k', v') :: insertEntries k v rest

theorem mem_insertEntries (k v : Bytes) :
    ∀ (l : List (Bytes × Bytes)) (p : Bytes × Bytes),
      p ∈ insertEntries k v l → p = (k, v) ∨ p ∈ l := by
  intro l
  induction l with
  | nil =>
    intro p hp
    simp [insertEntries] at hp
    exact Or.inl hp
  | cons q rest ih =>
    intro p hp
    obtain ⟨k', v'⟩ := q
    simp only [insertEntries] at hp
    by_cases h1 : bytesLt k k' = true
    · rw [if_pos h1] at hp
      rcases List.mem_cons.mp hp with hp | hp
      · exact Or.inl hp
      · exact Or.inr hp
    · rw [if_neg h1] at hp
      by_cases h2 : k = k'
      · rw [if_pos h2] at hp
        rcases List.mem_cons.mp hp with hp | hp
        · exact Or.inl hp
        · exact Or.inr (List.mem_cons_of_mem _ hp)
      · rw [if_neg h2] at hp
        rcases List.mem_cons.mp hp with hp | hp
        · exact Or.inr (by rw [hp]; exact List.mem_cons_self _ _)
        · rcases ih p hp with h | h
          · exact Or.inl h
          · exact Or.inr (List.mem_cons_of_mem _ h)

theorem insertEntries_sorted (k v : Bytes) :
    ∀ l : List (Bytes × Bytes), l.Pairwise entryLt → (insertEntries k v l).Pairwise entryLt := by
  intro l
  induction l with
  | nil =>
    intro _
    simp [insertEntries]
  | cons q rest ih =>
    intro hsorted
    obtain ⟨k', v'⟩ := q
    rw [List.pairwise_cons] at hsorted
    obtain ⟨hhead, hrest⟩ := hsorted
    simp only [insertEntries]
    by_cases h1 : bytesLt k k' = true
    · rw [if_pos h1]
      refine List.Pairwise.cons ?_ (List.Pairwise.cons hhead hrest)
      intro p hp
      rcases List.mem_cons.mp hp with hp | hp
      · subst hp; exact h1
      · exact bytesLt_trans _ _ _ h1 (hhead p hp)
    · rw [if_neg h1]
      by_cases h2 : k = k'
      · rw [if_pos h2]
        subst h2
        exact List.Pairwise.cons hhead hrest
      · rw [if_neg h2]
        have hk'k : bytesLt k' k = true := bytesLt_conn k k' (by simpa using h1) h2
        refine List.Pairwise.cons ?_ (ih hrest)
        intro p hp
        rcases mem_insertEntries k v rest p hp with hp | hp
        · subst hp; exact hk'k
        · exact hhead p hp

/-- `BTreeMap::insert(key, value)`. -/
def PropertyMap.insert (m : PropertyMap) (k v : Bytes) : PropertyMap :=
  ⟨insertEntries k v m.entries, insertEntries_sorted k v m.entries m.sorted⟩

theorem PropertyMap.ext_entries {m m' : PropertyMap} (h : m.entries = m'.entries) : m = m' := by
  cases m
  cases m'
  simp only at h
  subst h
  rfl

/-! ## Entry type codec (§4.1) -/

/-- Record kinds the engine may report to `add_user_key`
(`pub enum EntryType`). -/
inductive EntryType where
  | Put
  | Delete
  | SingleDelete
  | Merge
  | RangeDeletion
  | BlockIndex
  | DeleteWithTimestamp
  | WideColumnEntity
  | TimedPut
  | Other
deriving DecidableEq

/-- Modelled from the spec: the FFI tag constant `ffi::rocksdb_k_entry_put`.
The `ffi` crate defining the ten `rocksdb_k_entry_*` `u32` constants is not
part of this repository's sources; the spec documents the codec's domain as
the closed range of tags for the enumeration `Put, Delete, SingleDelete,
Merge, RangeDeletion, BlockIndex, DeleteWithTimestamp, WideColumnEntity,
TimedPut, Other` in declaration order, modelled here as `0..=9`. -/
def rocksdb_k_entry_put : Nat := 0

/-- Modelled from the spec: `ffi::rocksdb_k_entry_delete` (see
`rocksdb_k_entry_put`). -/
def rocksdb_k_entry_delete : Nat := 1

/-- Modelled from the spec: `ffi::rocksdb_k_entry_single_delete`. -/
def rocksdb_k_entry_single_delete : Nat := 2

/-- Modelled from the spec: `ffi::rocksdb_k_entry_merge`. -/
def rocksdb_k_entry_merge : Nat := 3

/-- Modelled from the spec: `ffi::rocksdb_k_entry_range_deletion`. -/
def rocksdb_k_entry_range_deletion : Nat := 4

/-- Modelled from the spec: `ffi::rocksdb_k_entry_block_index`. -/
def rocksdb_k_entry_block_index : Nat := 5

/-- Modelled from the spec: `ffi::rocksdb_k_entry_delete_with_timestamp`. -/
def rocksdb_k_entry_delete_with_timestamp : Nat := 6

/-- Modelled from the spec: `ffi::rocksdb_k_entry_wide_column_entity`. -/
def rocksdb_k_entry_wide_column_entity : Nat := 7

/-- Modelled from the spec: `ffi::rocksdb_k_entry_timed_put`. -/
def rocksdb_k_entry_timed_put : Nat := 8

/-- Modelled from the spec: `ffi::rocksdb_k_entry_other`. -/
def rocksdb_k_entry_other : Nat := 9

/-- `EntryType::from_raw(value: i32) -> Option<EntryType>`: reject negative
tags, then match `value as u32` against the FFI constants.  The `match` on
`u32` constants is translated as an equality cascade; `value as u32` for a
non-negative `i32` is `Int.toNat`. -/
def EntryType.from_raw (value : Int) : Option EntryType :=
  if value < 0 then
    none
  else
    if value.toNat = rocksdb_k_entry_put then some EntryType.Put
    else if value.toNat = rocksdb_k_entry_delete then some EntryType.Delete
    else if value.toNat = rocksdb_k_entry_single_delete then some EntryType.SingleDelete
    else if value.toNat = rocksdb_k_entry_merge then some EntryType.Merge
    else if value.toNat = rocksdb_k_entry_range_deletion then some EntryType.RangeDeletion
    else if value.toNat = rocksdb_k_entry_block_index then some EntryType.BlockIndex
    else if value.toNat = rocksdb_k_entry_delete_with_timestamp then some EntryType.DeleteWithTimestamp
    else if value.toNat = rocksdb_k_entry_wide_column_entity then some EntryType.WideColumnEntity
    else if value.toNat = rocksdb_k_entry_timed_put then some EntryType.TimedPut
    else if value.toNat = rocksdb_k_entry_other then some EntryType.Other
    else none

/-! ## Collector interface and trampolines (§4.3) -/

/-- `slice::from_raw_parts(data, len)`: the `len` bytes a `(ptr, len)` pair
designates, with the pointed-to buffer modelled as a byte list. -/
def from_raw_parts (data : Bytes) (len : Nat) : Bytes := data.take len

/-- Default body of `TablePropertiesCollector::block_add`:
`let _ = (block_uncomp_bytes, block_compressed_bytes_fast, block_compressed_bytes_slow);`
— discard the arguments, leave the collector untouched. -/
def default_block_add (σ : Type) : σ → Nat → Nat → Nat → σ :=
  fun s block_uncomp_bytes block_compressed_bytes_fast block_compressed_bytes_slow =>
    let _ := (block_uncomp_bytes, block_compressed_bytes_fast, block_compressed_bytes_slow)
    s

/-- Default body of `TablePropertiesCollector::get_readable_properties`:
`BTreeMap::default()`. -/
def default_get_readable_properties (σ : Type) : σ → σ × PropertyMap :=
  fun s => (s, PropertyMap.empty)

/-- `trait TablePropertiesCollector` over an explicit state type `σ`:
each `&mut self` method is a state transformer.  `block_add` and
`get_readable_properties` carry the trait's provided defaults. -/
structure TablePropertiesCollector (σ : Type) where
  name : String
  add_user_key : σ → Bytes → Bytes → EntryType → Nat → Nat → σ
  block_add : σ → Nat → Nat → Nat → σ := default_block_add σ
  finish_properties : σ → σ × PropertyMap
  get_readable_properties : σ → σ × PropertyMap := default_get_readable_properties σ

/-- `collector_add_user_key_callback`: rebuild the key and value slices from
their `(ptr, len)` pairs, decode the entry-type tag (where `from_raw(..).unwrap()`
panicking on `None` is modelled by returning no successor state), and forward
to the collector's `add_user_key`. -/
def collector_add_user_key_callback {σ : Type} (c : TablePropertiesCollector σ) (s : σ)
    (raw_key : Bytes) (key_len : Nat) (raw_value : Bytes) (value_len : Nat)
    (entry_type : Int) (seq : Nat) (file_size : Nat) : Option σ :=
  let key := from_raw_parts raw_key key_len
  let value := from_raw_parts raw_value value_len
  match EntryType.from_raw entry_type with
  | none => none
  | some et => some (c.add_user_key s key value et seq file_size)

/-- `collector_block_add_callback`: forward the three block byte counts to
the collector's `block_add`. -/
def collector_block_add_callback {σ : Type} (c : TablePropertiesCollector σ) (s : σ)
    (block_uncomp_bytes block_compressed_bytes_fast block_compressed_bytes_slow : Nat) : σ :=
  c.block_add s block_uncomp_bytes block_compressed_bytes_fast block_compressed_bytes_slow

/-- `collector_finish_properties_callback`: when the engine supplied an
add-property function pointer (`Option<fn>`), run the collector's
`finish_properties` and invoke the callback once per key/value pair, in map
iteration order, passing each pair's bytes and lengths; the engine-side sink
`properties: *mut c_void` is an opaque state of type `π` the callback
transforms.  A null function pointer skips everything. -/
def collector_finish_properties_callback {σ π : Type} (c : TablePropertiesCollector σ) (s : σ)
    (properties : π) (add_user_properties_callback : Option (π → Bytes → Nat → Bytes → Nat → π)) :
    σ × π :=
  match add_user_properties_callback with
  | none => (s, properties)
  | some callback =>
    let r := c.finish_properties s
    (r.1, r.2.entries.foldl
      (fun acc kv => callback acc kv.1 kv.1.length kv.2 kv.2.length) properties)

/-- `collector_get_readable_properties_callback`: same shape as
`collector_finish_properties_callback`, forwarding to
`get_readable_properties`. -/
def collector_get_readable_properties_callback {σ π : Type} (c : TablePropertiesCollector σ)
    (s : σ) (properties : π)
    (add_user_properties_callback : Option (π → Bytes → Nat → Bytes → Nat → π)) : σ × π :=
  match add_user_properties_callback with
  | none => (s, properties)
  | some callback =>
    let r := c.get_readable_properties s
    (r.1, r.2.entries.foldl
      (fun acc kv => callback acc kv.1 kv.1.length kv.2 kv.2.length) properties)

/-! ## Table properties accessors and collection (§4.2 inbound, §4.5) -/

/-- `table_property_reader`: the inbound per-pair callback.  Rebuild the key
and value slices from their `(ptr, len)` pairs, copy them
(`to_vec().into()` — copying is implicit in the pure model) and insert into
the accumulator map reached through the opaque state pointer. -/
def table_property_reader (state : PropertyMap) (key_data : Bytes) (key_len : Nat)
    (value_data : Bytes) (value_len : Nat) : PropertyMap :=
  let key := from_raw_parts key_data key_len
  let value := from_raw_parts value_data value_len
  state.insert key value

/-- The engine-owned data behind a `*mut rocksdb_table_properties_t` handle,
as far as this bridge observes it: the table name and, for each of the two
property sets, the key/value pairs the engine's for-each entry point reports,
in the order it reports them. -/
structure RawTableProperties where
  table_name : String
  user_collected : List (Bytes × Bytes)
  readable : List (Bytes × Bytes)

/-- `TableProperties`: caller-owned wrapper around one engine handle. -/
structure TableProperties where
  inner : RawTableProperties

/-- `TableProperties::from_raw`. -/
def TableProperties.from_raw (inner : RawTableProperties) : TableProperties :=
  ⟨inner⟩

/-- `TableProperties::name`. -/
def TableProperties.name (t : TableProperties) : String :=
  t.inner.table_name

/-- The engine's `rocksdb_table_properties_user_collected` /
`rocksdb_table_properties_readable` for-each entry points: invoke the
supplied per-pair callback once per reported pair, in reported order, on the
state pointer. -/
def for_each_property (reported : List (Bytes × Bytes)) (state : PropertyMap)
    (per_pair : PropertyMap → Bytes → Nat → Bytes → Nat → PropertyMap) : PropertyMap :=
  reported.foldl (fun m kv => per_pair m kv.1 kv.1.length kv.2 kv.2.length) state

/-- `TableProperties::user_collected_properties`: start from a fresh
`BTreeMap` and let the engine's for-each drive `table_property_reader`. -/
def TableProperties.user_collected_properties (t : TableProperties) : PropertyMap :=
  for_each_property t.inner.user_collected PropertyMap.empty table_property_reader

/-- `TableProperties::readable_properties`: same against the readable set. -/
def TableProperties.readable_properties (t : TableProperties) : PropertyMap :=
  for_each_property t.inner.readable PropertyMap.empty table_property_reader

/-- `TablePropertiesCollection`: owned sequence of per-table accessors. -/
structure TablePropertiesCollection where
  tables : List TableProperties

/-- The drain loop of `TablePropertiesCollection::from_raw`, with the engine's
`rocksdb_table_properties_collection_next` modelled by the stream of results
successive calls return (`none` = null): push a wrapped `TableProperties` per
non-null result, stop at the first null. -/
def drain_collection : List (Option RawTableProperties) → List TableProperties
  | [] => []
  | none :: _ => []
  | some properties :: rest => TableProperties.from_raw properties :: drain_collection rest

/-- `TablePropertiesCollection::from_raw`. -/
def TablePropertiesCollection.from_raw (collection : List (Option RawTableProperties)) :
    TablePropertiesCollection :=
  ⟨drain_collection collection⟩

/-! ## The conformance test's counting collector (`tests/test_table_properties.rs`) -/

/-- Bytes of a string literal (`str::as_bytes`, ASCII content). -/
def str_bytes (s : String) : Bytes := s.toList.map Char.toNat

/-- `usize::to_string(..).into_bytes()`: decimal digits of a number. -/
def nat_to_string_bytes (n : Nat) : Bytes := (Nat.toDigits 10 n).map Char.toNat

/-- Mutable state of `TablePropertiesCollectorImpl` (its `name` field is the
constant carried by the collector record). -/
structure CollectorImplState where
  num_keys : Nat
  total_bytes : Nat
deriving DecidableEq

/-- `impl TablePropertiesCollector for TablePropertiesCollectorImpl`: count
`Put` records, sum their key+value byte lengths, and report both counters as
decimal strings under `"num-keys"` / `"total-bytes"`. -/
def table_properties_collector_impl : TablePropertiesCollector CollectorImplState where
  name := "table-properties-collector"
  add_user_key := fun s key value entry_type _seq _file_size =>
    if entry_type = EntryType.Put then
      { s with
        num_keys := s.num_keys + 1
        total_bytes := s.total_bytes + (key.length + value.length) }
    else
      s
  block_add := fun s _block_uncomp_bytes _block_compressed_bytes_fast
      _block_compressed_bytes_slow => s
  finish_properties := fun s =>
    (s, ((PropertyMap.empty.insert (str_bytes "num-keys")
            (nat_to_string_bytes s.num_keys)).insert (str_bytes "total-bytes")
            (nat_to_string_bytes s.total_bytes)))
  get_readable_properties := fun s => (s, PropertyMap.empty)

/-- The state `TablePropertiesCollectorFactoryImpl::create` initializes. -/
def table_properties_collector_impl_initial : CollectorImplState :=
  { num_keys := 0, total_bytes := 0 }

/-! ## Lookup helpers used to state the claims -/

/-- `BTreeMap::get` on the entry list. -/
def lookupEntries (k : Bytes) : List (Bytes × Bytes) → Option Bytes
  | [] => none
  | (k', v) :: rest => if k = k' then some v else lookupEntries k rest

/-- `BTreeMap::get(k)`. -/
def PropertyMap.lookup (m : PropertyMap) (k : Bytes) : Option Bytes :=
  lookupEntries k m.entries

/-- The value of the last pair reported for key `k` in an inbound
enumeration, if any. -/
def last_reported (reported : List (Bytes × Bytes)) (k : Bytes) : Option Bytes :=
  reported.foldl (fun acc kv => if kv.1 = k then some kv.2 else acc) none

/-- A map has strictly ascending and therefore unique keys. -/
def PropertyMap.strictly_ordered (m : PropertyMap) : Prop :=
  m.entries.Pairwise entryLt ∧ (m.entries.map (fun p => p.1)).Nodup

/-! ## Helper lemmas -/

theorem insertEntries_append (k v : Bytes) :
    ∀ l : List (Bytes × Bytes), (∀ p ∈ l, bytesLt p.1 k = true) →
      insertEntries k v l = l ++ [(k, v)] := by
  intro l
  induction l with
  | nil => intro _; rfl
  | cons q rest ih =>
    intro hlt
    obtain ⟨k', v'⟩ := q
    have hk'k : bytesLt k' k = true := hlt (k', v') (List.mem_cons_self _ _)
    have h1 : ¬ bytesLt k k' = true := by
      rw [bytesLt_asymm k' k hk'k]
      exact Bool.false_ne_true
    have h2 : k ≠ k' := fun h => by
      rw [h, bytesLt_irrefl] at hk'k
      exact Bool.noConfusion hk'k
    simp only [insertEntries, if_neg h1, if_neg h2, List.cons_append, List.cons.injEq, true_and]
    exact ih fun p hp => hlt p (List.mem_cons_of_mem _ hp)

theorem entries_foldl_insert :
    ∀ (l : List (Bytes × Bytes)) (m : PropertyMap), (m.entries ++ l).Pairwise entryLt →
      (l.foldl (fun m' kv => PropertyMap.insert m' kv.1 kv.2) m).entries = m.entries ++ l := by
  intro l
  induction l with
  | nil => intro m _; simp
  | cons q rest ih =>
    intro m hsorted
    obtain ⟨k, v⟩ := q
    have hlt : ∀ p ∈ m.entries, bytesLt p.1 k = true := by
      intro p hp
      have := (List.pairwise_append.mp hsorted).2.2 p hp (k, v) (List.mem_cons_self _ _)
      exact this
    have hstep : (PropertyMap.insert m k v).entries = m.entries ++ [(k, v)] :=
      insertEntries_append k v m.entries hlt
    have hrearrange : m.entries ++ (k, v) :: rest = (m.entries ++ [(k, v)]) ++ rest := by
      simp
    rw [List.foldl_cons]
    rw [ih (PropertyMap.insert m k v) (by rw [hstep, ← hrearrange]; exact hsorted)]
    rw [hstep]
    simp

theorem read_back_sorted (m : PropertyMap) :
    m.entries.foldl (fun m' kv => PropertyMap.insert m' kv.1 kv.2) PropertyMap.empty = m := by
  apply PropertyMap.ext_entries
  rw [entries_foldl_insert m.entries PropertyMap.empty (by simpa [PropertyMap.empty] using m.sorted)]
  simp [PropertyMap.empty]

theorem for_each_reader_eq_foldl_insert (reported : List (Bytes × Bytes)) (m : PropertyMap) :
    for_each_property reported m table_property_reader
      = reported.foldl (fun m' kv => PropertyMap.insert m' kv.1 kv.2) m := by
  simp [for_each_property, table_property_reader, from_raw_parts, List.take_length]

theorem foldl_record_outbound {β : Type} (f : Bytes × Bytes → β) :
    ∀ (l : List (Bytes × Bytes)) (init : List β),
      l.foldl (fun acc kv => acc ++ [f kv]) init = init ++ l.map f := by
  intro l
  induction l with
  | nil => intro init; simp
  | cons q rest ih =>
    intro init
    rw [List.foldl_cons, ih, List.map_cons]
    simp

theorem map_keys_nodup (m : PropertyMap) : (m.entries.map (fun p => p.1)).Nodup := by
  show (m.entries.map (fun p => p.1)).Pairwise (· ≠ ·)
  rw [List.pairwise_map]
  exact m.sorted.imp fun h => bytesLt_ne _ _ h

theorem lookupEntries_insertEntries (k k0 v0 : Bytes) :
    ∀ l : List (Bytes × Bytes),
      lookupEntries k (insertEntries k0 v0 l)
        = if k = k0 then some v0 else lookupEntries k l := by
  intro l
  induction l with
  | nil => simp [insertEntries, lookupEntries]
  | cons q rest ih =>
    obtain ⟨k', v'⟩ := q
    simp only [insertEntries]
    by_cases h1 : bytesLt k0 k' = true
    · rw [if_pos h1]
      simp [lookupEntries]
    · rw [if_neg h1]
      by_cases h2 : k0 = k'
      · rw [if_pos h2]
        subst h2
        by_cases hk : k = k0
        · simp [lookupEntries, hk]
        · simp [lookupEntries, hk]
      · rw [if_neg h2]
        by_cases hk' : k = k'
        · have hk0 : ¬ k = k0 := fun h => h2 (by rw [← h, hk'])
          have h2' : ¬ k' = k0 := fun h => h2 h.symm
          simp [lookupEntries, hk', hk0, h2']
        · simp [lookupEntries, hk', ih]

theorem lookup_foldl_insert (k : Bytes) :
    ∀ (l : List (Bytes × Bytes)) (m : PropertyMap),
      (l.foldl (fun m' kv => PropertyMap.insert m' kv.1 kv.2) m).lookup k
        = l.foldl (fun acc kv => if kv.1 = k then some kv.2 else acc) (m.lookup k) := by
  intro l
  induction l with
  | nil => intro m; rfl
  | cons q rest ih =>
    intro m
    obtain ⟨k0, v0⟩ := q
    rw [List.foldl_cons, List.foldl_cons, ih]
    have hstep : (PropertyMap.insert m k0 v0).lookup k
        = if k0 = k then some v0 else m.lookup k := by
      unfold PropertyMap.lookup
      rw [show (PropertyMap.insert m k0 v0).entries = insertEntries k0 v0 m.entries from rfl]
      rw [lookupEntries_insertEntries]
      by_cases hk : k = k0
      · simp [hk]
      · have hk' : ¬ k0 = k := fun h => hk h.symm
        simp [hk, hk']
    rw [hstep]

theorem lookupEntries_eq_none_iff (k : Bytes) :
    ∀ l : List (Bytes × Bytes),
      lookupEntries k l = none ↔ k ∉ l.map (fun p => p.1) := by
  intro l
  induction l with
  | nil => simp [lookupEntries]
  | cons q rest ih =>
    obtain ⟨k', v'⟩ := q
    by_cases hk : k = k'
    · simp [lookupEntries, hk]
    · simp [lookupEntries, hk, ih]

theorem foldl_last_none_iff (k : Bytes) :
    ∀ (l : List (Bytes × Bytes)) (acc : Option Bytes),
      l.foldl (fun acc' kv => if kv.1 = k then some kv.2 else acc') acc = none
        ↔ acc = none ∧ k ∉ l.map (fun p => p.1) := by
  intro l
  induction l with
  | nil => intro acc; simp
  | cons q rest ih =>
    intro acc
    obtain ⟨k0, v0⟩ := q
    rw [List.foldl_cons, ih]
    by_cases h : k0 = k
    · simp [h]
    · have h' : ¬ k = k0 := fun hh => h hh.symm
      simp [h, h']

/-! ## Auxiliary definitions for stating the claims -/

/-- One outbound add-property invocation as observed by the engine:
key bytes, key length, value bytes, value length. -/
abbrev OutboundCall := Bytes × Nat × Bytes × Nat

/-- An engine-side add-property callback that records each invocation. -/
def record_outbound (acc : List OutboundCall) (key : Bytes) (key_len : Nat)
    (value : Bytes) (value_len : Nat) : List OutboundCall :=
  acc ++ [(key, key_len, value, value_len)]

/-- A minimal collector that implements only the required methods, leaving
`block_add` and `get_readable_properties` at their trait defaults. -/
def witness_collector : TablePropertiesCollector Nat where
  name := "witness-collector"
  add_user_key := fun s _key _value _entry_type _seq _file_size => s
  finish_properties := fun s => (s, PropertyMap.empty)

/-! ## Claim theorems -/

/-- Claim C2: a property map emitted by a collector's `finish_properties` and
pushed outbound pair-by-pair through the add-property callback, then read back
through the inbound per-pair reader (`table_property_reader` accumulating into
a fresh map), yields a map equal to the original. -/
theorem c2_round_trip (σ : Type) (c : TablePropertiesCollector σ) (s : σ) :
    (collector_finish_properties_callback c s PropertyMap.empty
        (some table_property_reader)).2
      = (c.finish_properties s).2 := by
  show (c.finish_properties s).2.entries.foldl
      (fun acc kv => table_property_reader acc kv.1 kv.1.length kv.2 kv.2.length)
      PropertyMap.empty = (c.finish_properties s).2
  have h := for_each_reader_eq_foldl_insert (c.finish_properties s).2.entries PropertyMap.empty
  unfold for_each_property at h
  rw [h]
  exact read_back_sorted (c.finish_properties s).2

/-- Claim C3: the outbound marshaling trampoline invokes the engine-supplied
add-property function exactly once per key/value pair of the finished map, in
ascending byte-lexicographic key order, passing that pair's key bytes and
length and value bytes and length. -/
theorem c3_outbound_marshaling (σ : Type) (c : TablePropertiesCollector σ) (s : σ) :
    (collector_finish_properties_callback c s ([] : List OutboundCall)
        (some record_outbound)).2
      = (c.finish_properties s).2.entries.map (fun kv => (kv.1, kv.1.length, kv.2, kv.2.length))
    ∧ ((c.finish_properties s).2.entries.map (fun kv => kv.1)).Pairwise
        (fun a b => bytesLt a b = true) := by
  constructor
  · show (c.finish_properties s).2.entries.foldl
        (fun acc kv => record_outbound acc kv.1 kv.1.length kv.2 kv.2.length) []
      = (c.finish_properties s).2.entries.map (fun kv => (kv.1, kv.1.length, kv.2, kv.2.length))
    have h := foldl_record_outbound
      (fun kv : Bytes × Bytes => (kv.1, kv.1.length, kv.2, kv.2.length))
      (c.finish_properties s).2.entries []
    rw [List.nil_append] at h
    exact h
  · rw [List.pairwise_map]
    exact (c.finish_properties s).2.sorted

/-- Claim C4: `TablePropertiesCollection::from_raw` drains the engine's
"next" entry point until the first null result: one `TableProperties` entry
per non-null handle, in the order returned, and nothing at or past the first
null. -/
theorem c4_collection_drain (tables : List RawTableProperties)
    (rest : List (Option RawTableProperties)) :
    (TablePropertiesCollection.from_raw (tables.map some ++ none :: rest)).tables
      = tables.map TableProperties.from_raw := by
  induction tables with
  | nil => rfl
  | cons t ts ih =>
    show TableProperties.from_raw t :: drain_collection (ts.map some ++ none :: rest)
      = TableProperties.from_raw t :: ts.map TableProperties.from_raw
    rw [show drain_collection (ts.map some ++ none :: rest)
      = (TablePropertiesCollection.from_raw (ts.map some ++ none :: rest)).tables from rfl, ih]

/-- Claim C5: a collector that leaves `get_readable_properties` at the trait
default returns the empty map (never an absent result), and the
readable-properties trampoline then invokes the engine's add-property
callback zero times, returning the sink unchanged. -/
theorem c5_default_readable_empty (σ π : Type) (c : TablePropertiesCollector σ) (s : σ)
    (properties : π) (callback : π → Bytes → Nat → Bytes → Nat → π)
    (h : c.get_readable_properties = default_get_readable_properties σ) :
    (c.get_readable_properties s).2 = PropertyMap.empty ∧
    collector_get_readable_properties_callback c s properties (some callback)
      = (s, properties) := by
  constructor
  · rw [h]
    rfl
  · unfold collector_get_readable_properties_callback
    rw [h]
    rfl

/-- Witness for C5: the minimal collector keeps the default, whose trampoline
run with a counting engine callback performs zero invocations. -/
theorem c5_default_readable_empty_witness :
    (witness_collector.get_readable_properties = default_get_readable_properties Nat) ∧
    ((witness_collector.get_readable_properties 7).2 = PropertyMap.empty ∧
      collector_get_readable_properties_callback witness_collector 7 (0 : Nat)
        (some fun acc _ _ _ _ => acc + 1) = (7, 0)) :=
  ⟨rfl, c5_default_readable_empty Nat Nat witness_collector 7 0 (fun acc _ _ _ _ => acc + 1) rfl⟩

/-- Claim C6: a collector that leaves `block_add` at the trait default is a
no-op under the block-add trampoline: any three byte counts leave the
collector state unchanged. -/
theorem c6_default_block_add_noop (σ : Type) (c : TablePropertiesCollector σ) (s : σ)
    (block_uncomp_bytes block_compressed_bytes_fast block_compressed_bytes_slow : Nat)
    (h : c.block_add = default_block_add σ) :
    collector_block_add_callback c s block_uncomp_bytes block_compressed_bytes_fast
      block_compressed_bytes_slow = s := by
  unfold collector_block_add_callback
  rw [h]
  rfl

/-- Witness for C6 at concrete byte counts. -/
theorem c6_default_block_add_noop_witness :
    (witness_collector.block_add = default_block_add Nat) ∧
    collector_block_add_callback witness_collector 5 1 2 3 = 5 :=
  ⟨rfl, c6_default_block_add_noop Nat witness_collector 5 1 2 3 rfl⟩

/-- Claim C10: a null add-property function pointer makes the
finish-properties and get-readable-properties trampolines return with the
collector state and engine sink unchanged, without consulting the collector. -/
theorem c10_null_callback_noop (σ π : Type) (c : TablePropertiesCollector σ) (s : σ)
    (properties : π) :
    collector_finish_properties_callback c s properties none = (s, properties) ∧
    collector_get_readable_properties_callback c s properties none = (s, properties) :=
  ⟨rfl, rfl⟩

/-- Claim C1: `EntryType::from_raw` maps every valid raw tag in the documented
range to the exact corresponding enum value, and every negative or
unrecognized tag to no value — which the `add_user_key` trampoline turns into
a panic (no successor state) instead of any default `EntryType`. -/
theorem c1_entry_type_codec :
    (EntryType.from_raw 0 = some EntryType.Put) ∧
    (EntryType.from_raw 1 = some EntryType.Delete) ∧
    (EntryType.from_raw 2 = some EntryType.SingleDelete) ∧
    (EntryType.from_raw 3 = some EntryType.Merge) ∧
    (EntryType.from_raw 4 = some EntryType.RangeDeletion) ∧
    (EntryType.from_raw 5 = some EntryType.BlockIndex) ∧
    (EntryType.from_raw 6 = some EntryType.DeleteWithTimestamp) ∧
    (EntryType.from_raw 7 = some EntryType.WideColumnEntity) ∧
    (EntryType.from_raw 8 = some EntryType.TimedPut) ∧
    (EntryType.from_raw 9 = some EntryType.Other) ∧
    (∀ value : Int, value < 0 ∨ 9 < value → EntryType.from_raw value = none) ∧
    (∀ (σ : Type) (c : TablePropertiesCollector σ) (s : σ) (raw_key : Bytes) (key_len : Nat)
        (raw_value : Bytes) (value_len : Nat) (entry_type : Int) (seq file_size : Nat),
      EntryType.from_raw entry_type = none →
      collector_add_user_key_callback c s raw_key key_len raw_value value_len entry_type seq
        file_size = none) := by
  refine ⟨by decide, by decide, by decide, by decide, by decide, by decide, by decide, by decide,
    by decide, by decide, ?_, ?_⟩
  · intro value hv
    unfold EntryType.from_raw
    simp only [rocksdb_k_entry_put, rocksdb_k_entry_delete, rocksdb_k_entry_single_delete,
      rocksdb_k_entry_merge, rocksdb_k_entry_range_deletion, rocksdb_k_entry_block_index,
      rocksdb_k_entry_delete_with_timestamp, rocksdb_k_entry_wide_column_entity,
      rocksdb_k_entry_timed_put, rocksdb_k_entry_other]
    rcases hv with h | h
    · rw [if_pos h]
    · rw [if_neg (by omega)]
      have ht : 10 ≤ value.toNat := by omega
      repeat rw [if_neg (by omega)]
  · intro σ c s raw_key key_len raw_value value_len entry_type seq file_size h
    simp [collector_add_user_key_callback, h]

/-- Witness for C1 at the concrete out-of-range tags `-1` and `10`. -/
theorem c1_entry_type_codec_witness :
    ((-1 : Int) < 0 ∨ (9 : Int) < -1) ∧
    EntryType.from_raw (-1) = none ∧
    EntryType.from_raw 10 = none ∧
    collector_add_user_key_callback witness_collector 0 (str_bytes "k1") 2 (str_bytes "a") 1
      10 1 1 = none := by
  refine ⟨Or.inl (by decide), ?_, ?_, ?_⟩
  · exact c1_entry_type_codec.2.2.2.2.2.2.2.2.2.2.1 (-1) (Or.inl (by decide))
  · exact c1_entry_type_codec.2.2.2.2.2.2.2.2.2.2.1 10 (Or.inr (by decide))
  · exact c1_entry_type_codec.2.2.2.2.2.2.2.2.2.2.2 Nat witness_collector 0 (str_bytes "k1") 2
      (str_bytes "a") 1 10 1 1
      (c1_entry_type_codec.2.2.2.2.2.2.2.2.2.2.1 10 (Or.inr (by decide)))

/-- Claim C7: the conformance test's counting collector reports
`num-keys = "1"` after a build with a single `Put` of key `"k1"` and value
`"a"`, and any `add_user_key` call with a non-`Put` entry type leaves its
counters unchanged. -/
theorem c7_counting_collector :
    (PropertyMap.lookup
        ((table_properties_collector_impl.finish_properties
            (table_properties_collector_impl.add_user_key table_properties_collector_impl_initial
              (str_bytes "k1") (str_bytes "a") EntryType.Put 1 1)).2)
        (str_bytes "num-keys") = some (str_bytes "1")) ∧
    (∀ (s : CollectorImplState) (key value : Bytes) (entry_type : EntryType) (seq file_size : Nat),
      entry_type ≠ EntryType.Put →
      table_properties_collector_impl.add_user_key s key value entry_type seq file_size = s) := by
  constructor
  · decide
  · intro s key value entry_type seq file_size h
    simp [table_properties_collector_impl, h]

/-- Witness for C7 at a concrete non-`Put` entry type. -/
theorem c7_counting_collector_witness :
    EntryType.Merge ≠ EntryType.Put ∧
    table_properties_collector_impl.add_user_key table_properties_collector_impl_initial
      (str_bytes "k1") (str_bytes "a") EntryType.Merge 1 1
      = table_properties_collector_impl_initial :=
  ⟨by decide, c7_counting_collector.2 table_properties_collector_impl_initial
    (str_bytes "k1") (str_bytes "a") EntryType.Merge 1 1 (by decide)⟩

/-- Claim C8: every `PropertyMap` the bridge produces or consumes — the maps
returned by `finish_properties` / `get_readable_properties` and the maps
accumulated by inbound marshaling in `user_collected_properties` /
`readable_properties` — has strictly ascending byte-lexicographic keys and
therefore unique keys. -/
theorem c8_maps_sorted_unique (σ : Type) (c : TablePropertiesCollector σ) (s : σ)
    (t : TableProperties) :
    PropertyMap.strictly_ordered (c.finish_properties s).2 ∧
    PropertyMap.strictly_ordered (c.get_readable_properties s).2 ∧
    PropertyMap.strictly_ordered t.user_collected_properties ∧
    PropertyMap.strictly_ordered t.readable_properties :=
  ⟨⟨(c.finish_properties s).2.sorted, map_keys_nodup _⟩,
   ⟨(c.get_readable_properties s).2.sorted, map_keys_nodup _⟩,
   ⟨t.user_collected_properties.sorted, map_keys_nodup _⟩,
   ⟨t.readable_properties.sorted, map_keys_nodup _⟩⟩

/-- Claim C9: when the engine's inbound enumeration reports a key more than
once, the accumulated map keeps the last-reported value for that key, and the
map's size is the number of distinct reported keys. -/
theorem c9_last_write_wins (t : TableProperties) (k : Bytes) :
    t.user_collected_properties.lookup k = last_reported t.inner.user_collected k ∧
    t.user_collected_properties.entries.length
      = (t.inner.user_collected.map (fun p => p.1)).dedup.length := by
  have hfold : t.user_collected_properties
      = t.inner.user_collected.foldl (fun m' kv => PropertyMap.insert m' kv.1 kv.2)
          PropertyMap.empty :=
    for_each_reader_eq_foldl_insert t.inner.user_collected PropertyMap.empty
  constructor
  · rw [hfold, lookup_foldl_insert]
    rfl
  · have hlook : ∀ a : Bytes, lookupEntries a t.user_collected_properties.entries
        = last_reported t.inner.user_collected a := by
      intro a
      rw [hfold]
      exact lookup_foldl_insert a t.inner.user_collected PropertyMap.empty
    have hmem : ∀ a : Bytes, a ∈ t.user_collected_properties.entries.map (fun p => p.1)
        ↔ a ∈ t.inner.user_collected.map (fun p => p.1) := by
      intro a
      have h1 := lookupEntries_eq_none_iff a t.user_collected_properties.entries
      have h3 := foldl_last_none_iff a t.inner.user_collected none
      constructor
      · intro ha
        by_contra hnot
        have hnone : last_reported t.inner.user_collected a = none := h3.mpr ⟨rfl, hnot⟩
        rw [← hlook a] at hnone
        exact (h1.mp hnone) ha
      · intro ha
        by_contra hnot
        have hnone : lookupEntries a t.user_collected_properties.entries = none := h1.mpr hnot
        rw [hlook a] at hnone
        exact (h3.mp hnone).2 ha
    have hn1 : (t.user_collected_properties.entries.map (fun p => p.1)).Nodup :=
      map_keys_nodup _
    have hn2 : ((t.inner.user_collected.map (fun p => p.1)).dedup).Nodup :=
      List.nodup_dedup _
    have hperm : List.Perm (t.user_collected_properties.entries.map (fun p => p.1))
        ((t.inner.user_collected.map (fun p => p.1)).dedup) := by
      rw [List.perm_ext_iff_of_nodup hn1 hn2]
      intro a
      rw [List.mem_dedup]
      exact hmem a
    have hlen := hperm.length_eq
    rw [List.length_map] at hlen
    exact hlen
